import Mathlib

/-!
Verification of the academic-review backend pipeline
(security validation, paper retrieval/deduplication, review synthesis).

The Python sources are shallowly embedded: character classes and regular
expressions are modelled over ASCII by explicit matcher functions, strings
as `List Char` / `String`, machine numbers as `Int` / `ℚ`, fallible code as
`Except String`, and the external services (arXiv client, sentence
embedder, FAISS index, LLM clients) as explicit oracle parameters whose
interface follows the source and its library documentation.
-/

namespace AcademicReview

/-- ASCII code points used symbolically (kept as defs to stay readable). -/
def nullC : Char := Char.ofNat 0
def tabC : Char := Char.ofNat 9
def nlC : Char := Char.ofNat 10
def vtC : Char := Char.ofNat 11
def ffC : Char := Char.ofNat 12
def crC : Char := Char.ofNat 13
def spC : Char := Char.ofNat 32
def dquoteC : Char := Char.ofNat 34
def squoteC : Char := Char.ofNat 39
def dollarC : Char := Char.ofNat 36
def ampC : Char := Char.ofNat 38
def ltC : Char := Char.ofNat 60
def eqC : Char := Char.ofNat 61
def gtC : Char := Char.ofNat 62
def backslashC : Char := Char.ofNat 92
def backtickC : Char := Char.ofNat 96
def lbraceC : Char := Char.ofNat 123
def rbraceC : Char := Char.ofNat 125

/-- ASCII lower-casing, the model of `str.lower()` / `re.IGNORECASE`. -/
def lowerC (c : Char) : Char :=
  if h : 65 ≤ c.toNat ∧ c.toNat ≤ 90 then
    Char.ofNatAux (c.toNat + 32) (Or.inl (by omega))
  else c

/-- ASCII model of the `\d` class. -/
def isDigitC (c : Char) : Bool := 48 ≤ c.toNat ∧ c.toNat ≤ 57

/-- ASCII letters. -/
def isAlphaC (c : Char) : Bool :=
  (65 ≤ c.toNat ∧ c.toNat ≤ 90) ∨ (97 ≤ c.toNat ∧ c.toNat ≤ 122)

def isAlnumC (c : Char) : Bool := isAlphaC c || isDigitC c

/-- ASCII model of the `\w` class of Python `re`. -/
def isWordC (c : Char) : Bool := isAlnumC c || c.toNat = 95

/-- ASCII model of the `\s` class of Python `re` (and of `str.strip`). -/
def isSpaceC (c : Char) : Bool :=
  c.toNat = 32 || c.toNat = 9 || c.toNat = 10 || c.toNat = 13
  || c.toNat = 11 || c.toNat = 12

/-- ASCII lower-casing of a character list (`str.lower()`). -/
def lowerL (s : List Char) : List Char := s.map lowerC

/-- Characters of a string literal. -/
def cl (s : String) : List Char := s.data

/-- Number of leading characters satisfying `p`. -/
def countWhile (p : Char → Bool) : List Char → Nat
  | [] => 0
  | c :: rest => if p c then countWhile p rest + 1 else 0

/-- `pat` matches at the head of `s`, comparing case-insensitively. -/
def matchesAtCI : List Char → List Char → Bool
  | [], _ => true
  | _ :: _, [] => false
  | p :: ps, c :: cs => (lowerC c == lowerC p) && matchesAtCI ps cs

/-- Case-insensitive substring search (`re.search` of a literal,
`in` on lower-cased strings). -/
def containsSubCI (pat : List Char) : List Char → Bool
  | [] => matchesAtCI pat []
  | c :: cs => matchesAtCI pat (c :: cs) || containsSubCI pat cs

/-- `\b` to the left of a match: start of text or a non-word character. -/
def boundaryBefore : Option Char → Bool
  | none => true
  | some c => !(isWordC c)

/-- `\b` to the right of a match ending in a word character. -/
def boundaryAfterL : List Char → Bool
  | [] => true
  | c :: _ => !(isWordC c)

/-- Scan every position of the text, providing the previous character
(needed to evaluate `\b`) and the suffix starting at the position. -/
def scanPrev (p : Option Char → List Char → Bool) : Option Char → List Char → Bool
  | _, [] => false
  | prev, c :: rest => p prev (c :: rest) || scanPrev p (some c) rest

def scanAny (p : Option Char → List Char → Bool) (s : List Char) : Bool :=
  scanPrev p none s

def scanB (p : List Char → Bool) (s : List Char) : Bool :=
  scanAny (fun _ t => p t) s

/-- `re.search` for a pattern of shape `\bKW\b` where KW begins and ends in
word characters (all keyword alternatives in the source do). -/
def wbContains (kw : List Char) (s : List Char) : Bool :=
  scanAny (fun prev t =>
    boundaryBefore prev && matchesAtCI kw t && boundaryAfterL (t.drop kw.length)) s

def wbAny (kws : List (List Char)) (s : List Char) : Bool :=
  kws.any (fun k => wbContains k s)

def litAny (ls : List (List Char)) (s : List Char) : Bool :=
  ls.any (fun l => containsSubCI l s)

/-- Index of the first occurrence of `c` in `s`. -/
def findCharIdx (c : Char) : List Char → Option Nat
  | [] => none
  | d :: rest => if d = c then some 0 else (findCharIdx c rest).map (· + 1)

/-- Index of the first case-insensitive occurrence of `pat` in `s`. -/
def findSubIdxCI (pat : List Char) : List Char → Option Nat
  | [] => if matchesAtCI pat [] then some 0 else none
  | c :: cs =>
    if matchesAtCI pat (c :: cs) then some 0 else (findSubIdxCI pat cs).map (· + 1)

/-- Match `TAGOPEN[^>]*>.*?</TAG>` (IGNORECASE, DOTALL) at the head of `t`,
returning the matched length: the bracket run extends to the first `>`, and
the lazy body to the first close tag. -/
def tagBlockAt (openTag closeTag : List Char) (t : List Char) : Option Nat :=
  if matchesAtCI openTag t then
    let t1 := t.drop openTag.length
    match findCharIdx gtC t1 with
    | none => none
    | some j =>
      match findSubIdxCI closeTag (t1.drop (j + 1)) with
      | none => none
      | some k => some (openTag.length + j + 1 + k + closeTag.length)
  else none

/-- Index of the first case-insensitive occurrence of `pat`, scanning only
up to (and not across) the first newline: the lazy `.*?` body of a pattern
compiled *without* `re.DOTALL` cannot cross a line break. -/
def findSubIdxCInoNl (pat : List Char) : List Char → Option Nat
  | [] => if matchesAtCI pat [] then some 0 else none
  | c :: cs =>
    if matchesAtCI pat (c :: cs) then some 0
    else if c = nlC then none
    else (findSubIdxCInoNl pat cs).map (· + 1)

/-- Match `TAGOPEN[^>]*>.*?</TAG>` as compiled with `re.IGNORECASE` only
(no DOTALL), as in `_check_injection_patterns`: the `[^>]*` run may span
newlines (a negated class always matches `\n`) but the lazy body may
not. -/
def tagBlockAtNoNl (openTag closeTag : List Char) (t : List Char) : Option Nat :=
  if matchesAtCI openTag t then
    let t1 := t.drop openTag.length
    match findCharIdx gtC t1 with
    | none => none
    | some j =>
      match findSubIdxCInoNl closeTag (t1.drop (j + 1)) with
      | none => none
      | some k => some (openTag.length + j + 1 + k + closeTag.length)
  else none

/-- Existence of a match of `m` at some position (`re.search`). -/
def scanSome (m : List Char → Option Nat) : List Char → Bool
  | [] => false
  | c :: rest => (m (c :: rest)).isSome || scanSome m rest

def orPat : List Char := ['o', 'r']
def andPat : List Char := ['a', 'n', 'd']

/-- Tail of `\b(or|and)\s+\d+\s*=\s*\d+` after the keyword: at least one
space, digits, optional spaces, `=`, optional spaces, digits.  Greedy runs
are equivalent to the regex because `\s`, `\d`, and `=` are disjoint. -/
def tautTail (t : List Char) : Bool :=
  let s1 := countWhile isSpaceC t
  if s1 = 0 then false else
  let t1 := t.drop s1
  let d1 := countWhile isDigitC t1
  if d1 = 0 then false else
  let t2 := t1.drop d1
  let t3 := t2.drop (countWhile isSpaceC t2)
  match t3 with
  | [] => false
  | c :: t4 =>
    if c = eqC then countWhile isDigitC (t4.drop (countWhile isSpaceC t4)) ≠ 0
    else false

def orAndTautAt (prev : Option Char) (t : List Char) : Bool :=
  boundaryBefore prev &&
    ((matchesAtCI orPat t && tautTail (t.drop 2)) ||
     (matchesAtCI andPat t && tautTail (t.drop 3)))

/-- `'\s*(or|and)\s*'` at the head of `t`. -/
def quoteOrAndAt (t : List Char) : Bool :=
  match t with
  | [] => false
  | c :: t1 =>
    if c = squoteC then
      let t2 := t1.drop (countWhile isSpaceC t1)
      let k := if matchesAtCI orPat t2 then some 2
               else if matchesAtCI andPat t2 then some 3 else none
      match k with
      | none => false
      | some n =>
        let t3 := t2.drop n
        match t3.drop (countWhile isSpaceC t3) with
        | c2 :: _ => c2 = squoteC
        | [] => false
    else false

/-- `\bW1\s+W2\b` at the head of `t`. -/
def twoWordAt (w1 w2 : List Char) (prev : Option Char) (t : List Char) : Bool :=
  boundaryBefore prev && matchesAtCI w1 t &&
    (let t1 := t.drop w1.length
     let s1 := countWhile isSpaceC t1
     decide (s1 ≠ 0) && matchesAtCI w2 (t1.drop s1) &&
       boundaryAfterL ((t1.drop s1).drop w2.length))

/-- `on\w+\s*=` at the head of `t` (script-injection pattern; no `\b`). -/
def onEqAt (t : List Char) : Bool :=
  match t with
  | c1 :: c2 :: t1 =>
    lowerC c1 == 'o' && lowerC c2 == 'n' &&
      (let wn := countWhile isWordC t1
       decide (wn ≠ 0) &&
         (let t2 := t1.drop wn
          match t2.drop (countWhile isSpaceC t2) with
          | c :: _ => c == eqC
          | [] => false))
  | _ => false

/-- `KW\s*\(` at the head of `t` (for `expression\s*\(` and `url\s*\(`). -/
def wordParenAt (kw : List Char) (t : List Char) : Bool :=
  matchesAtCI kw t &&
    (let t1 := t.drop kw.length
     match t1.drop (countWhile isSpaceC t1) with
     | c :: _ => c == Char.ofNat 40
     | [] => false)

/-- `\bKW\b` where KW ends in `.`: the right `\b` holds only when a word
character follows the dot. -/
def dotKwAt (kw : List Char) (prev : Option Char) (t : List Char) : Bool :=
  boundaryBefore prev && matchesAtCI kw t &&
    (match t.drop kw.length with
     | c :: _ => isWordC c
     | [] => false)

def scriptOpen : List Char := [ltC, 's', 'c', 'r', 'i', 'p', 't']
def scriptClose : List Char := [ltC, '/', 's', 'c', 'r', 'i', 'p', 't', gtC]
def iframeOpen : List Char := [ltC, 'i', 'f', 'r', 'a', 'm', 'e']
def iframeClose : List Char := [ltC, '/', 'i', 'f', 'r', 'a', 'm', 'e', gtC]
def svgOpen : List Char := [ltC, 's', 'v', 'g']
def svgClose : List Char := [ltC, '/', 's', 'v', 'g', gtC]

/-- The SQL-injection pattern family of `SecurityValidator.sql_patterns`. -/
def sqlMatch (t : List Char) : Bool :=
  wbAny [cl "select", cl "insert", cl "update", cl "delete", cl "drop",
         cl "create", cl "alter", cl "exec", cl "union", cl "truncate",
         cl "grant", cl "revoke"] t
  || litAny [cl "--", cl "#", cl "/*", cl "*/"] t
  || scanAny orAndTautAt t
  || scanB quoteOrAndAt t
  || scanAny (twoWordAt (cl "union") (cl "select")) t
  || scanAny (twoWordAt (cl "into") (cl "outfile")) t
  || wbContains (cl "load_file") t

/-- The command-injection pattern family of `cmd_patterns`. -/
def cmdMatch (t : List Char) : Bool :=
  wbAny [cl "system", cl "exec", cl "eval", cl "shell_exec", cl "passthru",
         cl "popen", cl "proc_open", cl "subprocess", cl "os.system"] t
  || litAny [cl "&&", cl "||", cl ";", [backtickC], cl "$(",
             [dollarC, lbraceC]] t
  || wbAny [cl "rm", cl "del", cl "format", cl "shutdown", cl "reboot",
            cl "kill", cl "killall", cl "pkill"] t
  || litAny [cl "../", cl "..\\", cl "/etc/", cl "/bin/", cl "/usr/",
             cl "/var/"] t
  || wbAny [cl "curl", cl "wget", cl "nc", cl "netcat", cl "telnet",
            cl "ssh", cl "ftp"] t
  || wbAny [cl "chmod", cl "chown", cl "chgrp", cl "sudo", cl "su"] t

/-- The script-injection pattern family of `script_patterns` (the check
compiles them with `re.IGNORECASE` only, so the tag-block bodies cannot
span newlines — unlike the DOTALL removals of `sanitize_output`). -/
def scriptMatch (t : List Char) : Bool :=
  scanSome (tagBlockAtNoNl scriptOpen scriptClose) t
  || litAny [cl "javascript:", cl "vbscript:", cl "data:text/html"] t
  || scanB onEqAt t
  || litAny [cl "<iframe", cl "<object", cl "<embed", cl "<form",
             cl "<input"] t
  || (scanB (wordParenAt (cl "expression")) t
      || containsSubCI (cl "@import") t
      || scanB (wordParenAt (cl "url")) t)
  || scanSome (tagBlockAtNoNl svgOpen svgClose) t

/-- The Python-code-injection pattern family of `python_patterns`. -/
def pyMatch (t : List Char) : Bool :=
  wbAny [cl "__import__", cl "getattr", cl "setattr", cl "delattr",
         cl "hasattr", cl "callable", cl "compile", cl "eval", cl "exec"] t
  || wbAny [cl "globals", cl "locals", cl "vars", cl "dir", cl "input",
            cl "raw_input"] t
  || wbAny [cl "open", cl "file", cl "execfile", cl "reload",
            cl "__builtins__"] t
  || (scanAny (dotKwAt (cl "os.")) t || scanAny (dotKwAt (cl "sys.")) t
      || scanAny (dotKwAt (cl "subprocess.")) t
      || scanAny (dotKwAt (cl "pickle.")) t
      || scanAny (dotKwAt (cl "marshal.")) t)

/-- `SecurityValidator.blacklist`, in source order. -/
def blacklistWords : List String :=
  ["system", "sudo", "rm -rf", "drop table", "exec", "eval",
   "shell", "cmd", "powershell", "bash", "chmod", "chown",
   "__import__", "getattr", "setattr", "delattr", "subprocess",
   "os.system", "sys.exit", "pickle.loads", "marshal.loads",
   "input()", "raw_input()", "file(", "open(", "execfile",
   "<script", "javascript:", "vbscript:", "onload=", "onerror=",
   "document.cookie", "window.location", "eval(", "setTimeout",
   "setInterval", "innerHTML", "outerHTML", "insertAdjacentHTML"]

/-- First blacklisted word contained (case-insensitively) in `t`. -/
def blacklistHit (t : List Char) : Option String :=
  blacklistWords.find? (fun word => containsSubCI (lowerL word.data) t)

/-! ## `SecurityValidator._check_injection_patterns` -/

def sqlMsg : String := "Potentially malicious SQL pattern detected"
def cmdMsg : String := "Potentially malicious command pattern detected"
def scriptMsg : String := "Potentially malicious script pattern detected"
def pyMsg : String := "Potentially malicious Python code pattern detected"
def blMsg (word : String) : String := "Blocked keyword detected: " ++ word

/-- `_check_injection_patterns`: the four families in source order over the
lower-cased text, then the blacklist; the first hit raises. -/
def check_injection_patterns (text : String) : Except String Unit :=
  let t := lowerL text.data
  if sqlMatch t then .error sqlMsg
  else if cmdMatch t then .error cmdMsg
  else if scriptMatch t then .error scriptMsg
  else if pyMatch t then .error pyMsg
  else
    match blacklistHit t with
    | some word => .error (blMsg word)
    | none => .ok ()

/-! ## HTML escaping and text sanitization -/

/-- `html.escape(c, quote=True)` on one character. -/
def escCharQ (c : Char) : List Char :=
  if c = ampC then ['&', 'a', 'm', 'p', ';']
  else if c = ltC then ['&', 'l', 't', ';']
  else if c = gtC then ['&', 'g', 't', ';']
  else if c = dquoteC then ['&', 'q', 'u', 'o', 't', ';']
  else if c = squoteC then ['&', '#', 'x', '2', '7', ';']
  else [c]

/-- `html.escape(c, quote=False)` on one character. -/
def escCharNoQ (c : Char) : List Char :=
  if c = ampC then ['&', 'a', 'm', 'p', ';']
  else if c = ltC then ['&', 'l', 't', ';']
  else if c = gtC then ['&', 'g', 't', ';']
  else [c]

def htmlEscapeQ (s : List Char) : List Char := (s.map escCharQ).flatten

def htmlEscapeNoQ (s : List Char) : List Char := (s.map escCharNoQ).flatten

def removeAllC (c : Char) (s : List Char) : List Char := s.filter (fun d => d ≠ c)

def replaceAllC (c r : Char) (s : List Char) : List Char :=
  s.map (fun d => if d = c then r else d)

/-- `str.strip()`. -/
def stripL (s : List Char) : List Char :=
  ((s.dropWhile isSpaceC).reverse.dropWhile isSpaceC).reverse

/-- The pure transformation inside `_sanitize_text_input`: HTML-escape,
then drop NUL and CR, then turn LF into a space. -/
def sanitizeCore (s : List Char) : List Char :=
  replaceAllC nlC spC (removeAllC crC (removeAllC nullC (htmlEscapeQ s)))

def tooLongMsg (maxLength : Nat) : String :=
  "Input too long. Maximum " ++ toString maxLength ++ " characters allowed"

/-- `SecurityValidator._sanitize_text_input` (the `isinstance` check is
subsumed by typing). -/
def sanitize_text_input (text : String) (maxLength : Nat) : Except String String := do
  check_injection_patterns text
  if maxLength < (sanitizeCore text.data).length then .error (tooLongMsg maxLength)
  else .ok (String.mk (stripL (sanitizeCore text.data)))

/-! ## `SecurityValidator.validate_domain_input` -/

/-- The character class of the domain re-check `^[\w\s\-\.\(\)\+\&\/]+$`. -/
def inDomainClass (c : Char) : Bool :=
  isWordC c || isSpaceC c || c.toNat = 45 || c.toNat = 46 || c.toNat = 40
  || c.toNat = 41 || c.toNat = 43 || c.toNat = 38 || c.toNat = 47

/-- `re.match(r'^[\w\s\-\.\(\)\+\&\/]+$', s)` (the sanitized text can no
longer contain a newline, so the `$` subtlety is vacuous). -/
def reDomainMatch (s : List Char) : Bool :=
  decide (s ≠ []) && s.all inDomainClass

def domainShortMsg : String := "Domain must be at least 2 characters long"
def domainCharsMsg : String :=
  "Domain contains invalid characters. Only letters, numbers, spaces, hyphens, dots, and parentheses are allowed"

def validateDomainField (domain : String) : Except String String := do
  let d ← sanitize_text_input domain 100
  if (stripL d.data).length < 2 then .error domainShortMsg
  else if !(reDomainMatch d.data) then .error domainCharsMsg
  else pure d

/-- `re.match(r'^\d{4}-\d{4}$', y)`. -/
def yearsFormat (y : List Char) : Bool :=
  match y with
  | [a, b, c, d, e, f, g, h, i] =>
    isDigitC a && isDigitC b && isDigitC c && isDigitC d && e == '-' &&
    isDigitC f && isDigitC g && isDigitC h && isDigitC i
  | _ => false

def digitVal (c : Char) : Int := (c.toNat : Int) - 48

/-- `int(years.split('-')[0])`, defined when the format check matched. -/
def yearStartOf (y : List Char) : Int :=
  match y with
  | a :: b :: c :: d :: _ =>
    ((digitVal a * 10 + digitVal b) * 10 + digitVal c) * 10 + digitVal d
  | _ => 0

/-- `int(years.split('-')[1])`, defined when the format check matched. -/
def yearEndOf (y : List Char) : Int :=
  match y with
  | _ :: _ :: _ :: _ :: _ :: f :: g :: h :: i :: _ =>
    ((digitVal f * 10 + digitVal g) * 10 + digitVal h) * 10 + digitVal i
  | _ => 0

def yearsFormatMsg : String := "Years must be in format \x27YYYY-YYYY\x27"
def yearsRangeMsg : String := "Years must be between 1990 and 2025"
def yearsOrderMsg : String := "Start year must be less than or equal to end year"
def countRangeMsg : String := "Paper count must be between 1 and 50"
def tempRangeMsg : String := "Temperature must be between 0.1 and 2.0"

/-- The `current_year` constant of the source. -/
def currentYear : Int := 2025

def validateYearsField (years : String) : Except String String := do
  let y ← sanitize_text_input years 20
  if !(yearsFormat y.data) then .error yearsFormatMsg
  else if yearStartOf y.data < 1990 ∨ currentYear < yearEndOf y.data then
    .error yearsRangeMsg
  else if yearEndOf y.data < yearStartOf y.data then .error yearsOrderMsg
  else pure y

def validateCountField (count : Int) : Except String Int :=
  if count < 1 ∨ 50 < count then .error countRangeMsg else pure count

def validateTempField (t : ℚ) : Except String ℚ :=
  if t < 1 / 10 ∨ 2 < t then .error tempRangeMsg else pure t

structure ValidatedInput where
  domain : String
  years : String
  paper_count : Int
  temperature : ℚ
  deriving Repr, DecidableEq

/-- `SecurityValidator.validate_domain_input`: the four fields in source
order, fail-fast.  Machine numbers are modelled as `Int` / `ℚ`; the
`isinstance` checks and the `int()`/`float()` coercions are subsumed by
the types. -/
def validate_domain_input (domain years : String) (paper_count : Int)
    (temperature : ℚ) : Except String ValidatedInput := do
  let d ← validateDomainField domain
  let y ← validateYearsField years
  let c ← validateCountField paper_count
  let t ← validateTempField temperature
  pure ⟨d, y, c, t⟩

/-! ## `SecurityValidator.sanitize_output` -/

def isQuoteC (c : Char) : Bool := c.toNat = 34 || c.toNat = 39

/-- `on\w+\s*=\s*["'][^"']*["']` at the head of `t`, returning the matched
length.  The greedy runs are equivalent to the regex because `\w`, `\s`,
`=` and the quotes are pairwise disjoint, and `[^"']*` extends to the
first quote, which then closes the match. -/
def mOnAttr (t : List Char) : Option Nat :=
  match t with
  | c1 :: c2 :: t1 =>
    if lowerC c1 = 'o' ∧ lowerC c2 = 'n' then
      if countWhile isWordC t1 = 0 then none else
      match (t1.drop (countWhile isWordC t1)).drop
          (countWhile isSpaceC (t1.drop (countWhile isWordC t1))) with
      | [] => none
      | c3 :: t4 =>
        if c3 = eqC then
          match t4.drop (countWhile isSpaceC t4) with
          | [] => none
          | q :: t6 =>
            if isQuoteC q then
              match t6.drop (countWhile (fun c => !(isQuoteC c)) t6) with
              | [] => none
              | _ :: _ =>
                some (2 + countWhile isWordC t1
                  + countWhile isSpaceC (t1.drop (countWhile isWordC t1))
                  + 1 + countWhile isSpaceC t4 + 1
                  + countWhile (fun c => !(isQuoteC c)) t6 + 1)
            else none
        else none
    else none
  | _ => none

def jsProtoPat : List Char :=
  ['j', 'a', 'v', 'a', 's', 'c', 'r', 'i', 'p', 't', Char.ofNat 58]

/-- `javascript:[^"'>\s]*` at the head of `t`. -/
def mJs (t : List Char) : Option Nat :=
  if matchesAtCI jsProtoPat t then
    some (jsProtoPat.length +
      countWhile (fun c => !(isQuoteC c || c = gtC || isSpaceC c))
        (t.drop jsProtoPat.length))
  else none

def mScript (t : List Char) : Option Nat := tagBlockAt scriptOpen scriptClose t
def mIframe (t : List Char) : Option Nat := tagBlockAt iframeOpen iframeClose t

/-- Fuel-driven core of `re.sub(pattern, '', text)`: delete the leftmost
match, resume after it.  `m` reports the length of a match anchored at the
head (every source pattern matches at least one character, so each step
consumes at least one character and fuel `s.length` is never exhausted). -/
def subAllF (m : List Char → Option Nat) : Nat → List Char → List Char
  | _, [] => []
  | 0, s => s
  | fuel + 1, c :: rest =>
    match m (c :: rest) with
    | some n => subAllF m fuel (rest.drop (n - 1))
    | none => c :: subAllF m fuel rest

/-- `re.sub(pattern, '', text)`. -/
def subAll (m : List Char → Option Nat) (s : List Char) : List Char :=
  subAllF m s.length s

def sanitize_output_l (s : List Char) : List Char :=
  subAll mJs (subAll mOnAttr (subAll mIframe (subAll mScript (htmlEscapeNoQ s))))

/-- `SecurityValidator.sanitize_output` on text input (the non-string
branch `str(text)` is subsumed by typing). -/
def sanitize_output (s : String) : String := String.mk (sanitize_output_l s.data)

/-! ## `SecurityValidator.validate_url` -/

def isSchemeC (c : Char) : Bool :=
  isAlnumC c || c = '+' || c = '-' || c = '.'

/-- The scheme recognized by `urllib.parse.urlparse`: the part before the
first `:`, if nonempty, led by a letter and made of scheme characters;
it is reported lower-cased. -/
def urlSchemeSplit (s : List Char) : List Char × List Char :=
  match findCharIdx (Char.ofNat 58) s with
  | none => ([], s)
  | some k =>
    let pre := s.take k
    match pre with
    | [] => ([], s)
    | c0 :: restPre =>
      if isAlphaC c0 && restPre.all isSchemeC then (lowerL pre, s.drop (k + 1))
      else ([], s)

/-- The netloc recognized by `urlparse`: present only after `//`, up to the
first `/`, `?` or `#`. -/
def urlNetloc (rest : List Char) : List Char :=
  match rest with
  | c1 :: c2 :: r =>
    if c1 = '/' ∧ c2 = '/' then
      r.takeWhile (fun c => !(c = '/' || c = Char.ofNat 63 || c = Char.ofNat 35))
    else []
  | _ => []

def startsWithL (pre s : List Char) : Bool :=
  match pre, s with
  | [], _ => true
  | _ :: _, [] => false
  | p :: ps, c :: cs => (c == p) && startsWithL ps cs

/-- `SecurityValidator.validate_url` (the `urlparse` of CPython never
raises on plain text input, so the `except` arm is dead). -/
def validate_url (url : String) : Bool :=
  let (scheme, rest) := urlSchemeSplit url.data
  let netloc := urlNetloc rest
  if !(scheme = cl "http" || scheme = cl "https") then false
  else if netloc.isEmpty then false
  else if [cl "localhost", cl "127.", cl "192.168.", cl "10.",
           cl "172."].any (fun p => startsWithL p netloc) then false
  else if [cl "file", cl "ftp", cl "javascript", cl "data"].any
            (fun x => scheme = x) then false
  else true

/-! ## `PaperRetriever._clean_text` -/

/-- Closing `$` of the lazy `\$.+?\$` body: the first `$` at index ≥ 1 of
the tail, provided no newline occurs up to it (`.` does not cross lines). -/
def dollarClose : List Char → Nat → Option Nat
  | [], _ => none
  | c :: rest, k =>
    if c = nlC then none
    else if c = dollarC ∧ 1 ≤ k then some k
    else dollarClose rest (k + 1)

/-- `\$.+?\$` at the head of `t`. -/
def mDollar (t : List Char) : Option Nat :=
  match t with
  | c :: rest =>
    if c = dollarC then
      match dollarClose rest 0 with
      | some k => some (k + 2)
      | none => none
    else none
  | [] => none

def isLowerAlphaC (c : Char) : Bool := 97 ≤ c.toNat ∧ c.toNat ≤ 122

/-- `\\[a-z]{1,}` at the head of `t` (no IGNORECASE flag on this one). -/
def mBackslash (t : List Char) : Option Nat :=
  match t with
  | c :: rest =>
    if c = backslashC then
      let n := countWhile isLowerAlphaC rest
      if n = 0 then none else some (n + 1)
    else none
  | [] => none

/-- `PaperRetriever._clean_text`: strip LaTeX math and commands, then trim. -/
def clean_text (s : String) : String :=
  String.mk (stripL (subAll mBackslash (subAll mDollar s.data)))

/-! ## Data model (`config.py`) -/

structure Paper where
  title : String
  authors : List String
  year : Int
  abstract : String
  url : String
  citations : Int
  deriving Repr, DecidableEq

/-- A raw arXiv result as shaped by the retrieval loop of
`search_papers` (`citation_count` is always 0 there). -/
structure RawPaper where
  title : String
  authors : List String
  year : Int
  abstract : String
  url : String
  citation_count : Int
  deriving Repr, DecidableEq

structure ReviewOutput where
  overview : String
  key_papers : List Paper
  trends : String
  challenges : String
  future_directions : String
  deriving Repr, DecidableEq

/-! ## `PaperRetriever.search_papers`

The embedding service and the FAISS `IndexFlatL2` are modelled per their
interface: vectors are rational lists, the index is the list of inserted
vectors, and a 2-nearest-neighbour query returns indices ordered by
increasing squared L2 distance (ties by insertion order) with `-1` as the
missing-neighbour sentinel. -/

abbrev Vec : Type := List ℚ

def sqDist (a b : Vec) : ℚ :=
  ((List.zip a b).map (fun p => (p.1 - p.2) ^ 2)).sum

/-- Fold selecting the entry with least distance, first-come on ties. -/
def bestPair : Option (Nat × ℚ) → List (Nat × ℚ) → Option (Nat × ℚ)
  | best, [] => best
  | none, (i, d) :: rest => bestPair (some (i, d)) rest
  | some (bi, bd), (i, d) :: rest =>
    if d < bd then bestPair (some (i, d)) rest
    else bestPair (some (bi, bd)) rest

/-- `index.search(q, k=2)` of an exact flat L2 index containing `db`. -/
def knn2 (db : List Vec) (q : Vec) : List Int :=
  let cands := db.enum.map (fun p => (p.1, sqDist q p.2))
  match bestPair none cands with
  | none => [-1, -1]
  | some (i1, _) =>
    match bestPair none (cands.filter (fun p => p.1 ≠ i1)) with
    | none => [(i1 : Int), -1]
    | some (i2, _) => [(i1 : Int), (i2 : Int)]

def rowGet (row : List Int) (k : Nat) : Int := row.getD k 0

/-- One iteration of the `unique_indices` loop of `search_papers`. -/
def dedupStep (acc : List Int) (row : List Int) : List Int :=
  if row.length < 2 ∨ rowGet row 1 = -1 ∨ ¬ acc.contains (rowGet row 0) then
    (if acc.contains (rowGet row 0) then acc else acc ++ [rowGet row 0])
  else acc

/-- The `unique_indices` set, as the insertion-ordered list of members. -/
def dedupSelect (inds : List (List Int)) : List Int := inds.foldl dedupStep []

/-- Python list indexing `l[i]` (negative indices wrap; the guard
`i < len(papers)` in the source keeps this in range). -/
def pyIdx {α : Type} (l : List α) (i : Int) : Option α :=
  let j : Int := if i < 0 then (l.length : Int) + i else i
  if 0 ≤ j then l[j.toNat]? else none

def arxivDefaultUrl : String := "https://arxiv.org/"

/-- The per-record processing loop at the end of `search_papers`. -/
def processPaper (p : RawPaper) : Paper :=
  { title := sanitize_output (clean_text p.title)
  , authors := p.authors.map sanitize_output
  , year := p.year
  , abstract := sanitize_output (clean_text p.abstract)
  , url := if validate_url p.url then p.url else arxivDefaultUrl
  , citations := p.citation_count }

/-- `PaperRetriever.search_papers`.  External interactions are oracle
parameters: `fetched` is the arXiv client's result (the query string built
from the validated fields only feeds that call), `embedder` is the
sentence-transformer with `normalize_embeddings=True`.  `index` is the
FAISS index state of the retriever instance: the source creates it once in
`__init__` and `search_papers` adds every batch of embeddings to it, so it
accumulates across calls; the updated index is returned alongside the
papers. -/
def wrapFetch (fetched : Except String (List RawPaper)) :
    Except String (List RawPaper) :=
  match fetched with
  | .ok l => pure l
  | .error e => Except.error ("arXiv API Error: " ++ e)

/-- The vectorize-and-deduplicate block of `search_papers` (run only when
more than one candidate was retrieved), returning the kept raw papers and
the updated index state. -/
def dedupKeep (index : List Vec) (embedder : String → Vec)
    (papers : List RawPaper) (cnt : Int) : List RawPaper × List Vec :=
  if 1 < papers.length then
    let texts := papers.map (fun p => p.title ++ " " ++ p.abstract)
    let embeds := texts.map embedder
    let idx := index ++ embeds
    let inds := embeds.map (knn2 idx)
    let uniq := dedupSelect inds
    let valid := uniq.filter (fun i => i < (papers.length : Int))
    let chosen := (valid.insertionSort (· ≤ ·)).filterMap (pyIdx papers)
    (chosen.take cnt.toNat, idx)
  else (papers, index)

def search_papers (index : List Vec) (embedder : String → Vec)
    (domain years : String) (count : Int)
    (fetched : Except String (List RawPaper)) :
    Except String (List Paper × List Vec) := do
  let v ← validate_domain_input domain years count (7 / 10)
  let papers ← wrapFetch fetched
  let pr := dedupKeep index embedder papers v.paper_count
  pure (pr.1.map processPaper, pr.2)

/-! ## `json.loads` (strict mode, as used by `generate_with_params`) -/

inductive Jv where
  | jnull
  | jbool (b : Bool)
  | jnum (q : ℚ) (isInt : Bool)
  | jstr (s : String)
  | jarr (items : List Jv)
  | jobj (members : List (String × Jv))
  deriving Repr, BEq

def jsonWs (s : List Char) : List Char :=
  s.dropWhile (fun c => c = spC || c = tabC || c = nlC || c = crC)

def parseHexDigit (c : Char) : Option Nat :=
  if isDigitC c then some (c.toNat - 48)
  else if 97 ≤ c.toNat ∧ c.toNat ≤ 102 then some (c.toNat - 87)
  else if 65 ≤ c.toNat ∧ c.toNat ≤ 70 then some (c.toNat - 55)
  else none

/-- Body of a JSON string after the opening quote; returns the decoded
characters and the remainder after the closing quote. -/
def parseStringBody : Nat → List Char → Except String (List Char × List Char)
  | 0, _ => .error "Unterminated string"
  | fuel + 1, s =>
    match s with
    | [] => .error "Unterminated string"
    | c :: rest =>
      if c = dquoteC then .ok ([], rest)
      else if c = backslashC then
        match rest with
        | [] => .error "Unterminated string"
        | e :: rest2 =>
          let simpleEsc : Option Char :=
            if e = dquoteC then some dquoteC
            else if e = backslashC then some backslashC
            else if e = '/' then some '/'
            else if e = 'b' then some (Char.ofNat 8)
            else if e = 'f' then some ffC
            else if e = 'n' then some nlC
            else if e = 'r' then some crC
            else if e = 't' then some tabC
            else none
          match simpleEsc with
          | some ch => do
            let (tl, rem) ← parseStringBody fuel rest2
            .ok (ch :: tl, rem)
          | none =>
            if e = 'u' then
              match rest2 with
              | h1 :: h2 :: h3 :: h4 :: rest3 =>
                match parseHexDigit h1, parseHexDigit h2,
                      parseHexDigit h3, parseHexDigit h4 with
                | some a, some b, some c2, some d => do
                  let (tl, rem) ← parseStringBody fuel rest3
                  .ok (Char.ofNat (((a * 16 + b) * 16 + c2) * 16 + d) :: tl, rem)
                | _, _, _, _ => .error "Invalid \\uXXXX escape"
              | _ => .error "Invalid \\uXXXX escape"
            else .error "Invalid \\escape"
      else if c.toNat < 32 then .error "Invalid control character"
      else do
        let (tl, rem) ← parseStringBody fuel rest
        .ok (c :: tl, rem)

def digitsVal (ds : List Char) : Nat :=
  ds.foldl (fun a c => a * 10 + (c.toNat - 48)) 0

def splitDigits (s : List Char) : List Char × List Char :=
  (s.takeWhile isDigitC, s.dropWhile isDigitC)

/-- A JSON number at the head of `s` (grammar of the strict decoder:
`-? (0 | [1-9][0-9]*) (\.[0-9]+)? ([eE][+-]?[0-9]+)?`). -/
def parseNumber (s : List Char) : Except String (Jv × List Char) :=
  let (neg, s1) :=
    match s with
    | c :: rest => if c = '-' then (true, rest) else (false, s)
    | [] => (false, s)
  let (ip, s2) :=
    match s1 with
    | c :: rest => if c = '0' then ([c], rest) else splitDigits s1
    | [] => ([], [])
  if ip.isEmpty then .error "Expecting value"
  else
    let (fr, s3) :=
      match s2 with
      | c :: rest => if c = '.' then
          (some (rest.takeWhile isDigitC), rest.dropWhile isDigitC)
        else (none, s2)
      | [] => (none, s2)
    if fr = some [] then .error "Expecting value"
    else
      let (ex, s4) :=
        match s3 with
        | c :: rest =>
          if c = 'e' ∨ c = 'E' then
            match rest with
            | d :: r =>
              if d = '+' then ((some (1, r.takeWhile isDigitC) : Option (Int × List Char)), r.dropWhile isDigitC)
              else if d = '-' then (some (-1, r.takeWhile isDigitC), r.dropWhile isDigitC)
              else (some (1, rest.takeWhile isDigitC), rest.dropWhile isDigitC)
            | [] => (some (1, []), [])
          else (none, s3)
        | [] => (none, s3)
      match ex with
      | some (_, []) => .error "Expecting value"
      | _ =>
        let frv : ℚ :=
          match fr with
          | some ds => (digitsVal ds : ℚ) / (10 : ℚ) ^ ds.length
          | none => 0
        let ev : ℤ :=
          match ex with
          | some (sg, ds) => sg * (digitsVal ds : ℤ)
          | none => 0
        let mag : ℚ := ((digitsVal ip : ℚ) + frv) * (10 : ℚ) ^ ev
        .ok (Jv.jnum (if neg then -mag else mag) (fr = none ∧ ex = none), s4)

mutual

def parseVal : Nat → List Char → Except String (Jv × List Char)
  | 0, _ => .error "Recursion limit"
  | fuel + 1, s =>
    let s := jsonWs s
    match s with
    | [] => .error "Expecting value"
    | c :: rest =>
      if c = lbraceC then parseMembers fuel rest true
      else if c = Char.ofNat 91 then parseItems fuel rest true
      else if c = dquoteC then do
        let (cs, rem) ← parseStringBody (rest.length + 1) rest
        .ok (Jv.jstr (String.mk cs), rem)
      else if c = 't' then
        if startsWithL (cl "rue") rest then .ok (Jv.jbool true, rest.drop 3)
        else .error "Expecting value"
      else if c = 'f' then
        if startsWithL (cl "alse") rest then .ok (Jv.jbool false, rest.drop 4)
        else .error "Expecting value"
      else if c = 'n' then
        if startsWithL (cl "ull") rest then .ok (Jv.jnull, rest.drop 3)
        else .error "Expecting value"
      else if c = '-' ∨ isDigitC c then parseNumber s
      else .error "Expecting value"

/-- Items of an array after `[` (or after a `,`); `first` allows `]`. -/
def parseItems : Nat → List Char → Bool → Except String (Jv × List Char)
  | 0, _, _ => .error "Recursion limit"
  | fuel + 1, s, first =>
    let s := jsonWs s
    match s with
    | [] => .error "Expecting value"
    | c :: rest =>
      if c = Char.ofNat 93 ∧ first then .ok (Jv.jarr [], rest)
      else do
        let (v, rem) ← parseVal fuel s
        match jsonWs rem with
        | [] => .error "Expecting delimiter"
        | c2 :: rest2 =>
          if c2 = Char.ofNat 93 then .ok (Jv.jarr [v], rest2)
          else if c2 = ',' then do
            let (tailv, rem2) ← parseItems fuel rest2 false
            match tailv with
            | Jv.jarr items => .ok (Jv.jarr (v :: items), rem2)
            | _ => .error "Expecting delimiter"
          else .error "Expecting delimiter"

/-- Members of an object after the opening brace (or after a `,`). -/
def parseMembers : Nat → List Char → Bool → Except String (Jv × List Char)
  | 0, _, _ => .error "Recursion limit"
  | fuel + 1, s, first =>
    let s := jsonWs s
    match s with
    | [] => .error "Expecting property name"
    | c :: rest =>
      if c = rbraceC ∧ first then .ok (Jv.jobj [], rest)
      else if c = dquoteC then do
        let (k, rem) ← parseStringBody (rest.length + 1) rest
        match jsonWs rem with
        | [] => .error "Expecting colon"
        | c2 :: rest2 =>
          if c2 = Char.ofNat 58 then do
            let (v, rem2) ← parseVal fuel rest2
            match jsonWs rem2 with
            | [] => .error "Expecting delimiter"
            | c3 :: rest3 =>
              if c3 = rbraceC then .ok (Jv.jobj [(String.mk k, v)], rest3)
              else if c3 = ',' then do
                let (tailv, rem3) ← parseMembers fuel rest3 false
                match tailv with
                | Jv.jobj ms => .ok (Jv.jobj ((String.mk k, v) :: ms), rem3)
                | _ => .error "Expecting delimiter"
              else .error "Expecting delimiter"
          else .error "Expecting colon"
      else .error "Expecting property name"

end

/-- `json.loads` on the extracted slice.  The fuel exceeds any nesting the
input length admits, so it is never exhausted on real inputs. -/
def jsonLoads (s : String) : Except String Jv := do
  let (v, rem) ← parseVal (2 * s.length + 8) s.data
  if (jsonWs rem).isEmpty then .ok v else .error "Extra data"

/-! ## `ReviewOutput(**json.loads(...))` (pydantic construction) -/

/-- Lookup in a decoded JSON object; Python dicts keep the last duplicate
key, hence the reverse. -/
def jLookup (ms : List (String × Jv)) (k : String) : Option Jv :=
  ms.reverse.lookup k

def getField (ms : List (String × Jv)) (k : String) : Except String Jv :=
  match jLookup ms k with
  | some v => .ok v
  | none => .error (k ++ ": Field required")

def jvStr : Jv → Except String String
  | Jv.jstr s => .ok s
  | _ => .error "Input should be a valid string"

/-- pydantic lax coercion to `int`: ints, integral floats, and numeric
strings are accepted. -/
def jvInt : Jv → Except String Int
  | Jv.jnum q _ =>
    if q.den = 1 then .ok q.num else .error "Input should be a valid integer"
  | Jv.jstr s =>
    (match s.data with
     | [] => .error "Input should be a valid integer"
     | c :: rest =>
       let (neg, ds) := if c = '-' then (true, rest) else (false, s.data)
       if decide (ds ≠ []) && ds.all isDigitC then
         .ok (if neg then -(digitsVal ds : Int) else (digitsVal ds : Int))
       else .error "Input should be a valid integer")
  | _ => .error "Input should be a valid integer"

def paperOfJv : Jv → Except String Paper
  | Jv.jobj ms => do
    let t ← jvStr (← getField ms "title")
    let au ← match (← getField ms "authors") with
      | Jv.jarr xs => xs.mapM jvStr
      | _ => Except.error "authors: Input should be a valid list"
    let y ← jvInt (← getField ms "year")
    let ab ← jvStr (← getField ms "abstract")
    let u ← jvStr (← getField ms "url")
    let ci ← jvInt (← getField ms "citations")
    pure ⟨t, au, y, ab, u, ci⟩
  | _ => .error "Input should be a valid dictionary"

/-- `ReviewOutput(**d)`: the five required fields are validated; extra
keys are ignored (pydantic default). -/
def reviewOutputOfJv : Jv → Except String ReviewOutput
  | Jv.jobj ms => do
    let ov ← jvStr (← getField ms "overview")
    let kp ← match (← getField ms "key_papers") with
      | Jv.jarr xs => xs.mapM paperOfJv
      | _ => Except.error "key_papers: Input should be a valid list"
    let tr ← jvStr (← getField ms "trends")
    let ch ← jvStr (← getField ms "challenges")
    let fd ← jvStr (← getField ms "future_directions")
    pure ⟨ov, kp, tr, ch, fd⟩
  | _ => .error "Input should be a valid dictionary"

/-! ## `ReviewGenerator.generate_with_params` -/

/-- `str.find(c)`. -/
def strFindC (c : Char) (s : List Char) : Int :=
  match findCharIdx c s with
  | some k => (k : Int)
  | none => -1

/-- `str.rfind(c)`. -/
def strRfindC (c : Char) (s : List Char) : Int :=
  match findCharIdx c s.reverse with
  | some k => (s.length : Int) - 1 - (k : Int)
  | none => -1

/-- `s[a:b]` for `0 ≤ a ≤ b` (the only use site guarantees this). -/
def sliceL (s : List Char) (a b : Int) : List Char :=
  (s.take b.toNat).drop a.toNat

def fallbackPrefix : String :=
  "Error: The model did not return a valid JSON object. Below is the raw response from the model:\n\n---\n\n"

/-- The degraded document built in the `except json.JSONDecodeError` arm
(its `response` argument is the already-sanitized response, which the arm
sanitizes again). -/
def fallbackDoc (papers : List Paper) (response : String) : ReviewOutput :=
  { overview := fallbackPrefix ++ sanitize_output response
  , key_papers := papers.take 3
  , trends := ""
  , challenges := ""
  , future_directions := "" }

/-- `ReviewGenerator.generate_with_params`.  The streamed model reply is
the oracle parameter `response` (the in-order concatenation of the
fragments; `model` only selects which client produces it, and the prompt
built from `papers`/`domain` only feeds that external call).  A
`json.JSONDecodeError` — including the one raised explicitly when no
brace pair is found — is absorbed into the fallback document; any other
error of the structured construction (a pydantic `ValidationError` from
`ReviewOutput(**...)`) propagates, exactly as in the source. -/
def generate_with_params (papers : List Paper) (domain : String)
    (temperature : ℚ) (_model : String) (response : String) :
    Except String ReviewOutput := do
  let _ ← validate_domain_input domain "2020-2024" (papers.length : Int) temperature
  if strFindC lbraceC (sanitize_output response).data ≠ -1 ∧
      strFindC lbraceC (sanitize_output response).data
        < strRfindC rbraceC (sanitize_output response).data + 1 then
    match jsonLoads (String.mk (sliceL (sanitize_output response).data
        (strFindC lbraceC (sanitize_output response).data)
        (strRfindC rbraceC (sanitize_output response).data + 1))) with
    | .error _ => pure (fallbackDoc papers (sanitize_output response))
    | .ok jv =>
      match reviewOutputOfJv jv with
      | .ok r => pure r
      | .error e => .error e
  else
    pure (fallbackDoc papers (sanitize_output response))

/-! ## Restricted character classes used by the amended claims -/

/-- The domain character class without the ampersand.  (`&` is in the
class of the source's re-check, but escaping rewrites it to `&amp;`,
whose `;` is outside the class, so `&`-containing domains never pass.) -/
def inDomainClassNoAmp (c : Char) : Bool :=
  isWordC c || isSpaceC c || c.toNat = 45 || c.toNat = 46 || c.toNat = 40
  || c.toNat = 41 || c.toNat = 43 || c.toNat = 47

/-- Plain text: ASCII letters, digits and spaces. -/
def isPlainC (c : Char) : Bool := isAlnumC c || c.toNat = 32

/-! ## Concrete fixtures for witnesses and counterexamples -/

def paperT1 : Paper :=
  ⟨"T1", ["A1"], 2021, "Ab1", "https://arxiv.org/abs/1", 0⟩

def rawQc1 : RawPaper :=
  ⟨"Quantum Computing Basics", ["X"], 2022, "qc paper", "https://arxiv.org/abs/1", 0⟩
def rawQc2 : RawPaper :=
  ⟨"Quantum Computing Basics (v2)", ["X"], 2022, "qc paper", "https://arxiv.org/abs/2", 0⟩
def rawBio : RawPaper :=
  ⟨"Protein Folding Survey", ["Y"], 2021, "bio paper", "javascript:alert(1)", 0⟩
def rawNlp1 : RawPaper :=
  ⟨"Neural Parsing", ["Z"], 2023, "nlp paper", "https://arxiv.org/abs/3", 0⟩
def rawNlp2 : RawPaper :=
  ⟨"Graph Networks", ["W"], 2023, "gnn paper", "https://arxiv.org/abs/4", 0⟩

def vecQc1 : Vec := [1, 0]
def vecQc2 : Vec := [24 / 25, 7 / 25]
def vecNlp1 : Vec := [3 / 5, 4 / 5]
def vecNlp2 : Vec := [5 / 13, 12 / 13]
def vecBio : Vec := [0, 1]

/-- A deterministic stand-in for the normalized sentence embedder: all
vectors are unit-norm; the two quantum titles embed near-identically
(squared L2 distance 2/25), every other pair is far apart (≥ 2/5). -/
def embedder3 : String → Vec := fun t =>
  if t = "Quantum Computing Basics qc paper" then vecQc1
  else if t = "Quantum Computing Basics (v2) qc paper" then vecQc2
  else vecBio

/-- The embedder for the two-call scenario: all five candidate texts get
pairwise distinct unit vectors. -/
def embedder5 : String → Vec := fun t =>
  if t = "Quantum Computing Basics qc paper" then vecQc1
  else if t = "Quantum Computing Basics (v2) qc paper" then vecQc2
  else if t = "Neural Parsing nlp paper" then vecNlp1
  else if t = "Graph Networks gnn paper" then vecNlp2
  else vecBio

end AcademicReview

namespace AcademicReview

/-! # Claim theorems -/

/-! ## Reduction lemmas for the `Except` monad -/

theorem exc_bind_ok {α β : Type} (a : α) (f : α → Except String β) :
    (Except.ok a : Except String α) >>= f = f a := rfl

theorem exc_bind_error {α β : Type} (e : String) (f : α → Except String β) :
    (Except.error e : Except String α) >>= f = Except.error e := rfl

theorem exc_pure {α : Type} (a : α) : (pure a : Except String α) = Except.ok a := rfl

/-! ## Fail-fast propagation of the injection check -/

/-- If the injection check rejects the domain, `validate_domain_input`
fails with exactly that message (the check is the first thing
`_sanitize_text_input` does). -/
theorem validate_error_of_check (domain years : String) (count : Int) (temp : ℚ)
    (m : String) (h : check_injection_patterns domain = .error m) :
    validate_domain_input domain years count temp = .error m := by
  unfold validate_domain_input validateDomainField sanitize_text_input
  rw [h]
  rfl

/-- `validateCountField` rejects out-of-range counts with the source's
message. -/
theorem validateCount_error_of_range {count : Int} (h : count < 1 ∨ 50 < count) :
    validateCountField count = .error countRangeMsg := by
  unfold validateCountField
  rw [if_pos h]

/-- **C1** (counter-evaluation, code bug).  The model response `{}` is
valid JSON, so no `json.JSONDecodeError` is raised, but
`ReviewOutput(**{})` fails pydantic validation (all five fields missing)
and that error is not caught by the `except json.JSONDecodeError` arm:
`generate_with_params` propagates an exception caused purely by the model
output instead of returning the degraded document. -/
theorem c1_pydantic_error_escapes :
    generate_with_params [paperT1] "machine learning" (7 / 10) "deepseek" "\x7b\x7d"
      = .error "overview: Field required" := by with_unfolding_all rfl

/-- **C2** (counterexample).  `sanitize_output` is not idempotent: a
second application re-escapes the ampersand of `&amp;`, so
`sanitize_output (sanitize_output "x&y") = "x&amp;amp;y" ≠ "x&amp;y"`. -/
theorem c2_sanitize_not_idempotent :
    sanitize_output "x&y" = "x&amp;y" ∧
    sanitize_output (sanitize_output "x&y") = "x&amp;amp;y" ∧
    sanitize_output (sanitize_output "x&y") ≠ sanitize_output "x&y" :=
  ⟨rfl, rfl, by decide⟩

/-- **C3** (counterexample).  `A&B` is 2–100 characters long and drawn
from the permitted charset (which includes the ampersand), with all other
fields well-formed and in range, yet `validate_domain_input` rejects it:
HTML escaping turns it into `A&amp;B`, whose `;` fails the charset
re-check. -/
theorem c3_ampersand_domain_rejected :
    validate_domain_input "A&B" "2020-2024" 5 (7 / 10) = .error domainCharsMsg := rfl

/-- **C4** (counter-evaluation, code bug).  Three candidates, the first
two with near-identical unit embeddings (squared distance 2/25) and the
third unrelated: because the query vectors are themselves in the index,
`indices[i][0]` is always the candidate itself, the acceptance test
`indices[i][0] not in unique_indices` always fires, and all three papers
are kept — the near-duplicate pair is never collapsed to a 2-element
representative set. -/
theorem c4_near_duplicates_all_kept :
    (search_papers [] embedder3 "machine learning" "2020-2024" 5
        (.ok [rawQc1, rawQc2, rawBio])).map (fun r => r.1.length) = .ok 3 := by
  with_unfolding_all rfl

/-- **C6** (counter-evaluation, code bug).  The FAISS index lives on the
retriever instance and accumulates across calls: a fresh retriever returns
both NLP papers, but after a first call has left two vectors in the index,
the identical second call returns no papers at all (the new embeddings sit
at index positions ≥ `len(papers)` and are all filtered out), so the
result does not depend only on the call's own inputs. -/
theorem c6_index_state_leaks_across_calls :
    (search_papers [] embedder5 "machine learning" "2020-2024" 5
        (.ok [rawNlp1, rawNlp2])).map (fun r => r.1.length) = .ok 2 ∧
    (search_papers [] embedder5 "machine learning" "2020-2024" 5
        (.ok [rawQc1, rawQc2])).map (fun r => r.2) = .ok [vecQc1, vecQc2] ∧
    (search_papers [vecQc1, vecQc2] embedder5 "machine learning" "2020-2024" 5
        (.ok [rawNlp1, rawNlp2])).map (fun r => r.1.length) = .ok 0 := by
  refine ⟨?_, ?_, ?_⟩ <;> with_unfolding_all rfl

/-- **C7** (counterexample).  For the brace-free model response `x&y`,
the degraded document is produced, but its overview embeds the
doubly-sanitized text `x&amp;amp;y` and does not contain the literal raw
response text `x&y` (not even case-insensitively). -/
theorem c7_raw_text_not_embedded_verbatim :
    generate_with_params [paperT1] "machine learning" (7 / 10) "deepseek" "x&y"
      = .ok ⟨"Error: The model did not return a valid JSON object. Below is the raw response from the model:\n\n---\n\nx&amp;amp;y",
             [paperT1], "", "", ""⟩ ∧
    containsSubCI (cl "x&y")
      (cl "Error: The model did not return a valid JSON object. Below is the raw response from the model:\n\n---\n\nx&amp;amp;y") = false := by
  refine ⟨?_, ?_⟩
  · with_unfolding_all rfl
  · decide

/-- **C10** (implicit).  `generate_with_params` re-validates
`len(papers)` as the paper-count field: whenever the domain itself passes
validation, an empty papers list or one with more than 50 entries makes it
fail with the count message, for every response — the validation error
short-circuits the whole body, so no generation-service call can be
reached. -/
theorem c10_paper_count_revalidated (papers : List Paper) (domain : String)
    (temperature : ℚ) (model response : String) (d : String)
    (hd : validateDomainField domain = .ok d)
    (hn : papers = [] ∨ 50 < papers.length) :
    generate_with_params papers domain temperature model response
      = .error countRangeMsg := by
  have hy : validateYearsField "2020-2024" = .ok "2020-2024" := rfl
  have hc : validateCountField (papers.length : Int) = .error countRangeMsg := by
    apply validateCount_error_of_range
    rcases hn with h | h
    · subst h; simp
    · right; exact_mod_cast h
  unfold generate_with_params validate_domain_input
  rw [hd, exc_bind_ok]
  rw [hy, exc_bind_ok]
  rw [hc, exc_bind_error, exc_bind_error]

/-- **C10 witness**: an empty papers list is rejected with the count
message before any generation work. -/
theorem c10_paper_count_revalidated_witness :
    generate_with_params [] "machine learning" (7 / 10) "deepseek" "any response"
      = .error countRangeMsg :=
  c10_paper_count_revalidated [] "machine learning" (7 / 10) "deepseek"
    "any response" "machine learning" (by rfl) (Or.inl rfl)

/-- **C5**.  Any domain whose lower-cased text matches one of the four
injection pattern families or contains a blacklisted word makes
`validate_domain_input` fail — never return a result — with the message of
a family that actually matches (or naming a blacklisted word actually
contained), for all other arguments. -/
theorem c5_injection_rejected_tagged (domain years : String) (count : Int)
    (temperature : ℚ)
    (h : sqlMatch (lowerL domain.data) = true
       ∨ cmdMatch (lowerL domain.data) = true
       ∨ scriptMatch (lowerL domain.data) = true
       ∨ pyMatch (lowerL domain.data) = true
       ∨ (blacklistHit (lowerL domain.data)).isSome = true) :
    ∃ m, validate_domain_input domain years count temperature = .error m ∧
      ((m = sqlMsg ∧ sqlMatch (lowerL domain.data) = true)
       ∨ (m = cmdMsg ∧ cmdMatch (lowerL domain.data) = true)
       ∨ (m = scriptMsg ∧ scriptMatch (lowerL domain.data) = true)
       ∨ (m = pyMsg ∧ pyMatch (lowerL domain.data) = true)
       ∨ (∃ word, word ∈ blacklistWords ∧ m = blMsg word
            ∧ containsSubCI (lowerL word.data) (lowerL domain.data) = true)) := by
  by_cases h1 : sqlMatch (lowerL domain.data) = true
  · refine ⟨sqlMsg, validate_error_of_check _ _ _ _ _ ?_, Or.inl ⟨rfl, h1⟩⟩
    unfold check_injection_patterns
    rw [if_pos h1]
  · by_cases h2 : cmdMatch (lowerL domain.data) = true
    · refine ⟨cmdMsg, validate_error_of_check _ _ _ _ _ ?_, Or.inr (Or.inl ⟨rfl, h2⟩)⟩
      unfold check_injection_patterns
      rw [if_neg h1, if_pos h2]
    · by_cases h3 : scriptMatch (lowerL domain.data) = true
      · refine ⟨scriptMsg, validate_error_of_check _ _ _ _ _ ?_,
          Or.inr (Or.inr (Or.inl ⟨rfl, h3⟩))⟩
        unfold check_injection_patterns
        rw [if_neg h1, if_neg h2, if_pos h3]
      · by_cases h4 : pyMatch (lowerL domain.data) = true
        · refine ⟨pyMsg, validate_error_of_check _ _ _ _ _ ?_,
            Or.inr (Or.inr (Or.inr (Or.inl ⟨rfl, h4⟩)))⟩
          unfold check_injection_patterns
          rw [if_neg h1, if_neg h2, if_neg h3, if_pos h4]
        · have h5 : (blacklistHit (lowerL domain.data)).isSome = true := by
            rcases h with h | h | h | h | h
            · exact absurd h h1
            · exact absurd h h2
            · exact absurd h h3
            · exact absurd h h4
            · exact h
          obtain ⟨word, hw⟩ := Option.isSome_iff_exists.mp h5
          have hw' : List.find? (fun w => containsSubCI (lowerL w.data)
              (lowerL domain.data)) blacklistWords = some word := hw
          refine ⟨blMsg word, validate_error_of_check _ _ _ _ _ ?_,
            Or.inr (Or.inr (Or.inr (Or.inr
              ⟨word, List.mem_of_find?_eq_some hw',
               rfl, by simpa using List.find?_some hw'⟩)))⟩
          unfold check_injection_patterns
          rw [if_neg h1, if_neg h2, if_neg h3, if_neg h4, hw]

/-- **C5 witness**: the domain `drop table students` (an in-charset string)
is rejected, tagged as a SQL pattern hit. -/
theorem c5_injection_rejected_tagged_witness :
    ∃ m, validate_domain_input "drop table students" "2020-2024" 5 (7 / 10)
        = .error m ∧
      ((m = sqlMsg ∧ sqlMatch (lowerL (cl "drop table students")) = true)
       ∨ (m = cmdMsg ∧ cmdMatch (lowerL (cl "drop table students")) = true)
       ∨ (m = scriptMsg ∧ scriptMatch (lowerL (cl "drop table students")) = true)
       ∨ (m = pyMsg ∧ pyMatch (lowerL (cl "drop table students")) = true)
       ∨ (∃ word, word ∈ blacklistWords ∧ m = blMsg word
            ∧ containsSubCI (lowerL word.data)
                (lowerL (cl "drop table students")) = true)) :=
  c5_injection_rejected_tagged "drop table students" "2020-2024" 5 (7 / 10)
    (Or.inl (by decide))

/-! ## Inversion of a successful `search_papers` run -/

/-- A successful `search_papers` call produced its output by mapping the
per-record processing over the kept raw-paper list. -/
theorem search_papers_ok_shape (index : List Vec) (embedder : String → Vec)
    (domain years : String) (count : Int)
    (fetched : Except String (List RawPaper))
    (out : List Paper) (index2 : List Vec)
    (h : search_papers index embedder domain years count fetched
          = .ok (out, index2)) :
    ∃ v raw, validate_domain_input domain years count (7 / 10) = .ok v
      ∧ fetched = .ok raw
      ∧ out = (dedupKeep index embedder raw v.paper_count).1.map processPaper := by
  unfold search_papers at h
  cases hv : validate_domain_input domain years count (7 / 10) with
  | error e => rw [hv, exc_bind_error] at h; cases h
  | ok v =>
    rw [hv, exc_bind_ok] at h
    cases fetched with
    | error e =>
      rw [show wrapFetch (Except.error e) = Except.error ("arXiv API Error: " ++ e)
            from rfl, exc_bind_error] at h
      cases h
    | ok raw =>
      rw [show wrapFetch (Except.ok raw) = Except.ok raw from rfl,
          exc_bind_ok, exc_pure] at h
      injection h with h1
      injection h1 with h2 h3
      exact ⟨v, raw, rfl, rfl, h2.symm⟩

/-- **C8**.  Every record of every successful `search_papers` call has a
`url` that passes `validate_url` or is exactly the safe default
`https://arxiv.org/` — the processing loop replaces any invalid URL. -/
theorem c8_url_invariant (index : List Vec) (embedder : String → Vec)
    (domain years : String) (count : Int)
    (fetched : Except String (List RawPaper))
    (out : List Paper) (index2 : List Vec)
    (h : search_papers index embedder domain years count fetched
          = .ok (out, index2)) :
    ∀ p ∈ out, validate_url p.url = true ∨ p.url = arxivDefaultUrl := by
  obtain ⟨v, raw, -, -, hout⟩ :=
    search_papers_ok_shape index embedder domain years count fetched out index2 h
  intro p hp
  rw [hout] at hp
  obtain ⟨r, -, rfl⟩ := List.mem_map.mp hp
  unfold processPaper
  by_cases hu : validate_url r.url = true
  · left; simp [hu]
  · right; simp [hu]

set_option maxRecDepth 4000 in
/-- **C8 witness**: a concrete successful call whose second raw record has
the unsafe URL `javascript:alert(1)`; the theorem then holds for its first
returned record. -/
theorem c8_url_invariant_witness :
    validate_url (processPaper rawBio).url = true
      ∨ (processPaper rawBio).url = arxivDefaultUrl :=
  c8_url_invariant [] embedder3 "machine learning" "2020-2024" 5
    (.ok [rawQc1, rawBio]) ((dedupKeep [] embedder3 [rawQc1, rawBio] 5).1.map processPaper)
    (dedupKeep [] embedder3 [rawQc1, rawBio] 5).2
    (by with_unfolding_all rfl)
    (processPaper rawBio)
    (by with_unfolding_all decide)

/-- If validation succeeded, the returned record carries the count
argument unchanged, and that count is in range. -/
theorem validate_ok_count (domain years : String) (count : Int) (temp : ℚ)
    (v : ValidatedInput)
    (h : validate_domain_input domain years count temp = .ok v) :
    v.paper_count = count ∧ 1 ≤ count ∧ count ≤ 50 := by
  unfold validate_domain_input at h
  cases hd : validateDomainField domain with
  | error e => rw [hd, exc_bind_error] at h; cases h
  | ok d =>
    rw [hd, exc_bind_ok] at h
    cases hy : validateYearsField years with
    | error e => rw [hy, exc_bind_error] at h; cases h
    | ok y =>
      rw [hy, exc_bind_ok] at h
      unfold validateCountField at h
      by_cases hc : count < 1 ∨ 50 < count
      · rw [if_pos hc, exc_bind_error] at h; cases h
      · rw [if_neg hc, exc_pure, exc_bind_ok] at h
        cases ht : validateTempField temp with
        | error e => rw [ht, exc_bind_error] at h; cases h
        | ok t2 =>
          rw [ht, exc_bind_ok, exc_pure] at h
          injection h with h1
          subst h1
          exact ⟨rfl, by omega, by omega⟩

/-- The kept list of the dedup block never exceeds the requested count
(the `>1` branch truncates with `[:count]`; the other branch has at most
one paper and `count ≥ 1`). -/
theorem dedupKeep_fst_length_le (index : List Vec) (embedder : String → Vec)
    (papers : List RawPaper) (cnt : Int) (h1 : 1 ≤ cnt) :
    (dedupKeep index embedder papers cnt).1.length ≤ cnt.toNat := by
  unfold dedupKeep
  by_cases hl : 1 < papers.length
  · rw [if_pos hl]
    exact List.length_take_le _ _
  · rw [if_neg hl]
    show papers.length ≤ cnt.toNat
    omega

/-- **C9**.  Whenever validation succeeds and the external source answers
(with any list, including one smaller than `count` or empty), the call
succeeds — a short result set is not an error — and the returned sequence
has length at most the validated count. -/
theorem c9_result_bounded_by_count (index : List Vec) (embedder : String → Vec)
    (domain years : String) (count : Int) (raw : List RawPaper)
    (v : ValidatedInput)
    (hv : validate_domain_input domain years count (7 / 10) = .ok v) :
    ∃ out index2,
      search_papers index embedder domain years count (.ok raw)
        = .ok (out, index2) ∧ out.length ≤ count.toNat := by
  obtain ⟨hpc, hc1, _⟩ := validate_ok_count domain years count (7 / 10) v hv
  refine ⟨(dedupKeep index embedder raw v.paper_count).1.map processPaper,
          (dedupKeep index embedder raw v.paper_count).2, ?_, ?_⟩
  · unfold search_papers
    rw [hv, exc_bind_ok,
        show wrapFetch (Except.ok raw) = Except.ok raw from rfl, exc_bind_ok]
    rfl
  · rw [List.length_map, hpc.symm]
    have := dedupKeep_fst_length_le index embedder raw v.paper_count (by omega)
    omega

/-- **C9 witness**: a single raw result against `count = 5` is returned
as-is (one paper, which is ≤ 5). -/
theorem c9_result_bounded_by_count_witness :
    ∃ out index2,
      search_papers [] embedder3 "machine learning" "2020-2024" 5
        (.ok [rawQc1]) = .ok (out, index2) ∧ out.length ≤ (5 : Int).toNat :=
  c9_result_bounded_by_count [] embedder3 "machine learning" "2020-2024" 5
    [rawQc1] ⟨"machine learning", "2020-2024", 5, 7 / 10⟩
    (by with_unfolding_all rfl)

/-! ## Character-code lemmas -/

theorem ne_of_toNat_ne {c d : Char} (h : c.toNat ≠ d.toNat) : c ≠ d :=
  fun e => h (congrArg Char.toNat e)

theorem lowerC_toNat (c : Char) :
    (lowerC c).toNat
      = if 65 ≤ c.toNat ∧ c.toNat ≤ 90 then c.toNat + 32 else c.toNat := by
  unfold lowerC
  split
  · simp [Char.ofNatAux, Char.toNat, UInt32.toNat, BitVec.toNat_ofNatLt]
  · rfl

theorem isPlainC_codes {c : Char} (h : isPlainC c = true) :
    (48 ≤ c.toNat ∧ c.toNat ≤ 57) ∨ (65 ≤ c.toNat ∧ c.toNat ≤ 90)
    ∨ (97 ≤ c.toNat ∧ c.toNat ≤ 122) ∨ c.toNat = 32 := by
  simp [isPlainC, isAlnumC, isAlphaC, isDigitC] at h
  omega

theorem isPlainC_lowerC_codes {c : Char} (h : isPlainC c = true) :
    (48 ≤ (lowerC c).toNat ∧ (lowerC c).toNat ≤ 57)
    ∨ (97 ≤ (lowerC c).toNat ∧ (lowerC c).toNat ≤ 122)
    ∨ (lowerC c).toNat = 32 := by
  have hc := isPlainC_codes h
  rw [lowerC_toNat]
  split <;> omega

/-! ## The sanitizer leaves plain text unchanged -/

theorem matchesAtCI_mem {pat t : List Char} (h : matchesAtCI pat t = true) :
    ∀ p ∈ pat, ∃ c ∈ t, lowerC c = lowerC p := by
  induction pat generalizing t with
  | nil => intro p hp; cases hp
  | cons p0 ps ih =>
    cases t with
    | nil => simp [matchesAtCI] at h
    | cons c cs =>
      simp only [matchesAtCI, Bool.and_eq_true, beq_iff_eq] at h
      intro p hp
      rcases List.mem_cons.mp hp with rfl | hp2
      · exact ⟨c, List.mem_cons_self c cs, h.1⟩
      · obtain ⟨c2, hc2, he⟩ := ih h.2 p hp2
        exact ⟨c2, List.mem_cons_of_mem _ hc2, he⟩

theorem matchesAtCI_false_of_mem {t pat : List Char} {p : Char} (hp : p ∈ pat)
    (ht : ∀ c ∈ t, isPlainC c = true)
    (hno : ∀ c, isPlainC c = true → lowerC c ≠ lowerC p) :
    matchesAtCI pat t = false := by
  by_contra hmat
  rw [Bool.not_eq_false] at hmat
  obtain ⟨c, hc, he⟩ := matchesAtCI_mem hmat p hp
  exact hno c (ht c hc) he

theorem plain_lower_ne_lt {c : Char} (h : isPlainC c = true) :
    lowerC c ≠ lowerC ltC := by
  apply ne_of_toNat_ne
  have h1 := isPlainC_lowerC_codes h
  have h2 : (lowerC ltC).toNat = 60 := by decide
  omega

theorem plain_lower_ne_colon {c : Char} (h : isPlainC c = true) :
    lowerC c ≠ lowerC (Char.ofNat 58) := by
  apply ne_of_toNat_ne
  have h1 := isPlainC_lowerC_codes h
  have h2 : (lowerC (Char.ofNat 58)).toNat = 58 := by decide
  omega

theorem plain_ne_eqC {c : Char} (h : isPlainC c = true) : c ≠ eqC := by
  apply ne_of_toNat_ne
  have h1 := isPlainC_codes h
  have h2 : eqC.toNat = 61 := rfl
  omega

theorem tagBlockAt_none_plain {openTag closeTag t : List Char}
    (hlt : ltC ∈ openTag) (ht : ∀ c ∈ t, isPlainC c = true) :
    tagBlockAt openTag closeTag t = none := by
  unfold tagBlockAt
  rw [matchesAtCI_false_of_mem hlt ht (fun c hc => plain_lower_ne_lt hc)]
  rfl

theorem mScript_none_plain {t : List Char} (ht : ∀ c ∈ t, isPlainC c = true) :
    mScript t = none :=
  tagBlockAt_none_plain (by decide) ht

theorem mIframe_none_plain {t : List Char} (ht : ∀ c ∈ t, isPlainC c = true) :
    mIframe t = none :=
  tagBlockAt_none_plain (by decide) ht

theorem mJs_none_plain {t : List Char} (ht : ∀ c ∈ t, isPlainC c = true) :
    mJs t = none := by
  unfold mJs
  rw [matchesAtCI_false_of_mem (p := Char.ofNat 58) (by decide) ht
        (fun c hc => plain_lower_ne_colon hc)]
  rfl

theorem mOnAttr_none_plain {t : List Char} (ht : ∀ c ∈ t, isPlainC c = true) :
    mOnAttr t = none := by
  cases t with
  | nil => rfl
  | cons c1 t0 =>
    cases t0 with
    | nil => rfl
    | cons c2 t1 =>
      have ht1 : ∀ c ∈ t1, isPlainC c = true := fun c hc =>
        ht c (List.mem_cons_of_mem _ (List.mem_cons_of_mem _ hc))
      simp only [mOnAttr]
      by_cases ho : lowerC c1 = 'o' ∧ lowerC c2 = 'n'
      · rw [if_pos ho]
        by_cases hw : countWhile isWordC t1 = 0
        · rw [if_pos hw]
        · rw [if_neg hw]
          cases hd : (t1.drop (countWhile isWordC t1)).drop
              (countWhile isSpaceC (t1.drop (countWhile isWordC t1))) with
          | nil => rfl
          | cons c3 t4 =>
            have hc3 : c3 ∈ t1 := by
              have h1 : c3 ∈ (t1.drop (countWhile isWordC t1)).drop
                  (countWhile isSpaceC (t1.drop (countWhile isWordC t1))) := by
                rw [hd]; exact List.mem_cons_self _ _
              exact List.drop_subset _ _ (List.drop_subset _ _ h1)
            exact if_neg (plain_ne_eqC (ht1 c3 hc3))
      · rw [if_neg ho]

theorem subAllF_id (m : List Char → Option Nat) (P : Char → Bool)
    (hm : ∀ t : List Char, (∀ c ∈ t, P c = true) → m t = none) :
    ∀ (fuel : Nat) (s : List Char), (∀ c ∈ s, P c = true)
      → subAllF m fuel s = s := by
  intro fuel
  induction fuel with
  | zero => intro s _; cases s <;> rfl
  | succ f ih =>
    intro s hs
    cases s with
    | nil => rfl
    | cons c rest =>
      show (match m (c :: rest) with
            | some n => subAllF m f (rest.drop (n - 1))
            | none => c :: subAllF m f rest) = c :: rest
      rw [hm _ hs]
      rw [ih rest (fun d hd => hs d (List.mem_cons_of_mem _ hd))]

theorem escCharNoQ_plain {c : Char} (h : isPlainC c = true) :
    escCharNoQ c = [c] := by
  have h1 := isPlainC_codes h
  unfold escCharNoQ
  rw [if_neg (ne_of_toNat_ne (show c.toNat ≠ ampC.toNat by
        rw [show ampC.toNat = 38 from rfl]; omega)),
      if_neg (ne_of_toNat_ne (show c.toNat ≠ ltC.toNat by
        rw [show ltC.toNat = 60 from rfl]; omega)),
      if_neg (ne_of_toNat_ne (show c.toNat ≠ gtC.toNat by
        rw [show gtC.toNat = 62 from rfl]; omega))]

theorem htmlEscapeNoQ_plain {s : List Char} (hs : ∀ c ∈ s, isPlainC c = true) :
    htmlEscapeNoQ s = s := by
  unfold htmlEscapeNoQ
  induction s with
  | nil => rfl
  | cons c rest ih =>
    rw [List.map_cons, List.flatten_cons,
        escCharNoQ_plain (hs c (List.mem_cons_self _ _)),
        ih (fun d hd => hs d (List.mem_cons_of_mem _ hd))]
    rfl

/-- `sanitize_output` is the identity on strings of letters, digits and
spaces: escaping changes nothing and no removal pattern can match. -/
theorem sanitize_output_plain {s : String} (hs : ∀ c ∈ s.data, isPlainC c = true) :
    sanitize_output s = s := by
  unfold sanitize_output sanitize_output_l subAll
  rw [htmlEscapeNoQ_plain hs]
  rw [subAllF_id mScript isPlainC (fun t ht => mScript_none_plain ht) _ _ hs]
  rw [subAllF_id mIframe isPlainC (fun t ht => mIframe_none_plain ht) _ _ hs]
  rw [subAllF_id mOnAttr isPlainC (fun t ht => mOnAttr_none_plain ht) _ _ hs]
  rw [subAllF_id mJs isPlainC (fun t ht => mJs_none_plain ht) _ _ hs]

/-- **C2 amended**.  `sanitize_output` is idempotent on every string of
ASCII letters, digits and spaces (more generally, whenever a first
application leaves the text unchanged); full idempotence fails because of
ampersand double-escaping (`c2_sanitize_not_idempotent`). -/
theorem c2_sanitize_idempotent_on_plain (s : String)
    (hs : ∀ c ∈ s.data, isPlainC c = true) :
    sanitize_output (sanitize_output s) = sanitize_output s := by
  rw [sanitize_output_plain hs, sanitize_output_plain hs]

/-- **C2 witness**: idempotence at a concrete plain string. -/
theorem c2_sanitize_idempotent_on_plain_witness :
    sanitize_output (sanitize_output "machine learning review 2024")
      = sanitize_output "machine learning review 2024" :=
  c2_sanitize_idempotent_on_plain "machine learning review 2024" (by decide)

/-! ## The sanitizer introduces no brace characters -/

theorem subAllF_subset (m : List Char → Option Nat) :
    ∀ (fuel : Nat) (s : List Char), ∀ c ∈ subAllF m fuel s, c ∈ s := by
  intro fuel
  induction fuel with
  | zero =>
    intro s c hc
    cases s with
    | nil => simp [subAllF] at hc
    | cons d rest => exact hc
  | succ f ih =>
    intro s c hc
    cases s with
    | nil => simp [subAllF] at hc
    | cons d rest =>
      have hc2 : c ∈ (match m (d :: rest) with
          | some n => subAllF m f (rest.drop (n - 1))
          | none => d :: subAllF m f rest) := hc
      cases hm : m (d :: rest) with
      | some n =>
        rw [hm] at hc2
        exact List.mem_cons_of_mem _ (List.drop_subset _ _ (ih _ c hc2))
      | none =>
        rw [hm] at hc2
        rcases List.mem_cons.mp hc2 with rfl | hc3
        · exact List.mem_cons_self _ _
        · exact List.mem_cons_of_mem _ (ih _ c hc3)

/-- The characters the escape entities can introduce. -/
def escEntChars : List Char := ['&', 'a', 'm', 'p', 'l', 't', 'g', ';']

theorem escCharNoQ_mem {d c : Char} (hc : c ∈ escCharNoQ d) :
    c = d ∨ c ∈ escEntChars := by
  unfold escCharNoQ at hc
  split at hc
  · right; fin_cases hc <;> decide
  · split at hc
    · right; fin_cases hc <;> decide
    · split at hc
      · right; fin_cases hc <;> decide
      · left; simpa using hc

theorem htmlEscapeNoQ_mem {s : List Char} {c : Char} (hc : c ∈ htmlEscapeNoQ s) :
    c ∈ s ∨ c ∈ escEntChars := by
  unfold htmlEscapeNoQ at hc
  rw [List.mem_flatten] at hc
  obtain ⟨l, hl, hcl⟩ := hc
  obtain ⟨d, hd, rfl⟩ := List.mem_map.mp hl
  rcases escCharNoQ_mem hcl with rfl | h
  · exact Or.inl hd
  · exact Or.inr h

theorem sanitize_no_new_brace {s : List Char} (h : lbraceC ∉ s) :
    lbraceC ∉ sanitize_output_l s := by
  intro hmem
  unfold sanitize_output_l subAll at hmem
  have h1 := subAllF_subset mJs _ _ _ hmem
  have h2 := subAllF_subset mOnAttr _ _ _ h1
  have h3 := subAllF_subset mIframe _ _ _ h2
  have h4 := subAllF_subset mScript _ _ _ h3
  rcases htmlEscapeNoQ_mem h4 with h5 | h5
  · exact h h5
  · revert h5; decide

theorem findCharIdx_eq_none {c : Char} {s : List Char} (h : c ∉ s) :
    findCharIdx c s = none := by
  induction s with
  | nil => rfl
  | cons d rest ih =>
    unfold findCharIdx
    rw [if_neg (fun e => h (by rw [← e]; exact List.mem_cons_self _ _)),
        ih (fun hm => h (List.mem_cons_of_mem _ hm))]
    rfl

theorem strFindC_eq_neg_one {c : Char} {s : List Char} (h : c ∉ s) :
    strFindC c s = -1 := by
  unfold strFindC
  rw [findCharIdx_eq_none h]

/-- **C7 amended**.  For every model response with no `{` character (in
particular none of `{`/`}`), once validation passes, the generator
returns — without any error — the degraded document: empty `trends`,
`challenges` and `future_directions`, the first 3 input papers, and an
overview embedding the doubly-sanitized response (the already-sanitized
buffer is sanitized again inside the fallback f-string), which is the
literal raw response text only when sanitization leaves it unchanged. -/
theorem c7_fallback_on_braceless_response (papers : List Paper) (domain : String)
    (temperature : ℚ) (model response : String) (v : ValidatedInput)
    (hv : validate_domain_input domain "2020-2024" (papers.length : Int)
            temperature = .ok v)
    (hb : lbraceC ∉ response.data) :
    generate_with_params papers domain temperature model response
      = .ok { overview := fallbackPrefix
                ++ sanitize_output (sanitize_output response)
            , key_papers := papers.take 3
            , trends := ""
            , challenges := ""
            , future_directions := "" } := by
  have hfind : strFindC lbraceC (sanitize_output response).data = -1 :=
    strFindC_eq_neg_one (sanitize_no_new_brace hb)
  unfold generate_with_params
  rw [hv, exc_bind_ok, hfind]
  rw [if_neg (by simp)]
  rfl

/-- **C7 witness**: a concrete plain-text response produces exactly the
degraded document. -/
theorem c7_fallback_on_braceless_response_witness :
    generate_with_params [paperT1] "machine learning" (7 / 10) "deepseek"
        "plain text answer"
      = .ok { overview := fallbackPrefix
                ++ sanitize_output (sanitize_output "plain text answer")
            , key_papers := [paperT1].take 3
            , trends := ""
            , challenges := ""
            , future_directions := "" } :=
  c7_fallback_on_braceless_response [paperT1] "machine learning" (7 / 10)
    "deepseek" "plain text answer" ⟨"machine learning", "2020-2024", 1, 7 / 10⟩
    (by with_unfolding_all rfl) (by decide)

/-! ## Escaping and stripping lemmas for the amended C3 -/

theorem inDomainClassNoAmp_codes {c : Char} (h : inDomainClassNoAmp c = true) :
    c.toNat ≠ 38 ∧ c.toNat ≠ 60 ∧ c.toNat ≠ 62 ∧ c.toNat ≠ 34 ∧ c.toNat ≠ 39 := by
  simp [inDomainClassNoAmp, isWordC, isAlnumC, isAlphaC, isDigitC, isSpaceC] at h
  omega

theorem escCharQ_id {c : Char} (h38 : c.toNat ≠ 38) (h60 : c.toNat ≠ 60)
    (h62 : c.toNat ≠ 62) (h34 : c.toNat ≠ 34) (h39 : c.toNat ≠ 39) :
    escCharQ c = [c] := by
  unfold escCharQ
  rw [if_neg (ne_of_toNat_ne (show c.toNat ≠ ampC.toNat from h38)),
      if_neg (ne_of_toNat_ne (show c.toNat ≠ ltC.toNat from h60)),
      if_neg (ne_of_toNat_ne (show c.toNat ≠ gtC.toNat from h62)),
      if_neg (ne_of_toNat_ne (show c.toNat ≠ dquoteC.toNat from h34)),
      if_neg (ne_of_toNat_ne (show c.toNat ≠ squoteC.toNat from h39))]

theorem htmlEscapeQ_id {s : List Char} (hs : ∀ c ∈ s, escCharQ c = [c]) :
    htmlEscapeQ s = s := by
  unfold htmlEscapeQ
  induction s with
  | nil => rfl
  | cons c rest ih =>
    rw [List.map_cons, List.flatten_cons, hs c (List.mem_cons_self _ _),
        ih (fun d hd => hs d (List.mem_cons_of_mem _ hd))]
    rfl

theorem sanitizeCore_length_le {s : List Char} (hesc : htmlEscapeQ s = s) :
    (sanitizeCore s).length ≤ s.length := by
  unfold sanitizeCore removeAllC replaceAllC
  rw [hesc, List.length_map]
  calc (List.filter (fun d => decide (d ≠ crC))
          (List.filter (fun d => decide (d ≠ nullC)) s)).length
      ≤ (List.filter (fun d => decide (d ≠ nullC)) s).length :=
        List.length_filter_le _ _
    _ ≤ s.length := List.length_filter_le _ _

theorem sanitizeCore_mem {s : List Char} (hesc : htmlEscapeQ s = s)
    {c : Char} (hc : c ∈ sanitizeCore s) : c ∈ s ∨ c = spC := by
  unfold sanitizeCore replaceAllC at hc
  obtain ⟨d, hd, hfd⟩ := List.mem_map.mp hc
  have hd2 : d ∈ s := by
    unfold removeAllC at hd
    rw [hesc] at hd
    exact List.mem_of_mem_filter (List.mem_of_mem_filter hd)
  by_cases hnl : d = nlC
  · right; rw [← hfd, if_pos hnl]
  · left; rw [← hfd, if_neg hnl]; exact hd2

theorem stripL_subset {s : List Char} : ∀ c ∈ stripL s, c ∈ s := by
  intro c hc
  unfold stripL at hc
  rw [List.mem_reverse] at hc
  have h1 := (List.dropWhile_sublist (l := (s.dropWhile isSpaceC).reverse)
      (p := isSpaceC)).subset hc
  rw [List.mem_reverse] at h1
  exact (List.dropWhile_sublist (p := isSpaceC)).subset h1

theorem dropWhile_head?_not (p : Char → Bool) :
    ∀ (s : List Char) (c : Char), (s.dropWhile p).head? = some c → p c = false := by
  intro s
  induction s with
  | nil => intro c h; cases h
  | cons d rest ih =>
    intro c h
    by_cases hd : p d = true
    · rw [List.dropWhile_cons_of_pos hd] at h
      exact ih c h
    · rw [List.dropWhile_cons_of_neg hd] at h
      injection h with h1
      subst h1
      simpa using hd

theorem dropWhile_eq_self_of_head? (p : Char → Bool) (s : List Char)
    (h : ∀ c, s.head? = some c → p c = false) : s.dropWhile p = s := by
  cases s with
  | nil => rfl
  | cons d rest =>
    rw [List.dropWhile_cons_of_neg]
    simp [h d rfl]

theorem getLast?_dropWhile_mem (p : Char → Bool) :
    ∀ (l : List Char) (c : Char),
      (l.dropWhile p).getLast? = some c → l.getLast? = some c := by
  intro l
  induction l with
  | nil => intro c h; cases h
  | cons d rest ih =>
    intro c h
    by_cases hd : p d = true
    · rw [List.dropWhile_cons_of_pos hd] at h
      have h2 := ih c h
      cases rest with
      | nil => cases h2
      | cons e tl => rw [List.getLast?_cons_cons]; exact h2
    · rw [List.dropWhile_cons_of_neg hd] at h
      exact h

theorem stripL_head?_not (s : List Char) (c : Char)
    (h : (stripL s).head? = some c) : isSpaceC c = false := by
  unfold stripL at h
  rw [List.head?_reverse] at h
  have h2 := getLast?_dropWhile_mem isSpaceC _ c h
  rw [List.getLast?_reverse] at h2
  exact dropWhile_head?_not isSpaceC s c h2

theorem stripL_reverse_head?_not (s : List Char) (c : Char)
    (h : (stripL s).reverse.head? = some c) : isSpaceC c = false := by
  unfold stripL at h
  rw [List.reverse_reverse] at h
  exact dropWhile_head?_not isSpaceC _ c h

theorem stripL_idem (s : List Char) : stripL (stripL s) = stripL s := by
  have h1 : (stripL s).dropWhile isSpaceC = stripL s :=
    dropWhile_eq_self_of_head? _ _ (stripL_head?_not s)
  have h2 : (stripL s).reverse.dropWhile isSpaceC = (stripL s).reverse :=
    dropWhile_eq_self_of_head? _ _ (stripL_reverse_head?_not s)
  show (((stripL s).dropWhile isSpaceC).reverse.dropWhile isSpaceC).reverse
      = stripL s
  rw [h1, h2, List.reverse_reverse]

theorem stripL_id_of_no_space {s : List Char}
    (hs : ∀ c ∈ s, isSpaceC c = false) : stripL s = s := by
  unfold stripL
  have h1 : s.dropWhile isSpaceC = s := by
    cases s with
    | nil => rfl
    | cons c rest =>
      rw [List.dropWhile_cons_of_neg]
      simp [hs c (List.mem_cons_self _ _)]
  rw [h1]
  have h2 : s.reverse.dropWhile isSpaceC = s.reverse := by
    cases hrev : s.reverse with
    | nil => rfl
    | cons c rest =>
      rw [List.dropWhile_cons_of_neg]
      have hm : c ∈ s := by
        rw [← List.mem_reverse, hrev]
        exact List.mem_cons_self _ _
      simp [hs c hm]
  rw [h2, List.reverse_reverse]

theorem yearsFormat_cases {y : List Char} (h : yearsFormat y = true) :
    ∃ a b c d f g h8 i : Char, y = [a, b, c, d, '-', f, g, h8, i]
      ∧ (∀ x ∈ y, isDigitC x = true ∨ x.toNat = 45) := by
  cases y with
  | nil => simp [yearsFormat] at h
  | cons a y1 => cases y1 with
    | nil => simp [yearsFormat] at h
    | cons b y2 => cases y2 with
      | nil => simp [yearsFormat] at h
      | cons c y3 => cases y3 with
        | nil => simp [yearsFormat] at h
        | cons d y4 => cases y4 with
          | nil => simp [yearsFormat] at h
          | cons e y5 => cases y5 with
            | nil => simp [yearsFormat] at h
            | cons f y6 => cases y6 with
              | nil => simp [yearsFormat] at h
              | cons g y7 => cases y7 with
                | nil => simp [yearsFormat] at h
                | cons h8 y8 => cases y8 with
                  | nil => simp [yearsFormat] at h
                  | cons i y9 => cases y9 with
                    | cons j y10 => simp [yearsFormat] at h
                    | nil =>
                      simp only [yearsFormat, Bool.and_eq_true,
                        beq_iff_eq] at h
                      obtain ⟨⟨⟨⟨⟨⟨⟨⟨h1, h2⟩, h3⟩, h4⟩, h5⟩, h6⟩, h7⟩, h9⟩, h10⟩ := h
                      subst h5
                      refine ⟨a, b, c, d, f, g, h8, i, rfl, ?_⟩
                      intro x hx
                      simp only [List.mem_cons, List.not_mem_nil, or_false] at hx
                      rcases hx with rfl | rfl | rfl | rfl | rfl | rfl | rfl | rfl | rfl
                      · exact Or.inl h1
                      · exact Or.inl h2
                      · exact Or.inl h3
                      · exact Or.inl h4
                      · exact Or.inr (by decide)
                      · exact Or.inl h6
                      · exact Or.inl h7
                      · exact Or.inl h9
                      · exact Or.inl h10

theorem sanitizeCore_id_of_digits {s : List Char}
    (hs : ∀ c ∈ s, isDigitC c = true ∨ c.toNat = 45) : sanitizeCore s = s := by
  have hcode : ∀ c ∈ s, (48 ≤ c.toNat ∧ c.toNat ≤ 57) ∨ c.toNat = 45 := by
    intro c hc
    rcases hs c hc with h | h
    · left; simpa [isDigitC] using h
    · right; exact h
  have hesc : htmlEscapeQ s = s := htmlEscapeQ_id (fun c hc => by
    have := hcode c hc
    exact escCharQ_id (by omega) (by omega) (by omega) (by omega) (by omega))
  have hnull : removeAllC nullC s = s := by
    unfold removeAllC
    exact List.filter_eq_self.mpr (fun c hc => by
      have := hcode c hc
      simp only [decide_eq_true_eq]
      exact ne_of_toNat_ne (show c.toNat ≠ nullC.toNat by
        rw [show nullC.toNat = 0 from rfl]; omega))
  have hcr : removeAllC crC s = s := by
    unfold removeAllC
    exact List.filter_eq_self.mpr (fun c hc => by
      have := hcode c hc
      simp only [decide_eq_true_eq]
      exact ne_of_toNat_ne (show c.toNat ≠ crC.toNat by
        rw [show crC.toNat = 13 from rfl]; omega))
  unfold sanitizeCore
  rw [hesc, hnull, hcr]
  unfold replaceAllC
  have hmapc : ∀ d ∈ s, (if d = nlC then spC else d) = d := fun d hd => by
    have := hcode d hd
    rw [if_neg (ne_of_toNat_ne (show d.toNat ≠ nlC.toNat by
      rw [show nlC.toNat = 10 from rfl]; omega))]
  rw [List.map_congr_left hmapc]
  exact List.map_id s

/-- **C3 amended**.  For well-formed, in-range input whose domain is drawn
from the permitted charset *without* the ampersand (see
`c3_ampersand_domain_rejected`), passes the injection screening (domain
and years), and whose sanitized domain still has at least 2 characters,
`validate_domain_input` succeeds and returns exactly the
sanitized/trimmed domain together with the other fields unchanged. -/
theorem c3_validate_accepts_wellformed (domain years : String) (count : Int)
    (temperature : ℚ)
    (hchk : check_injection_patterns domain = .ok ())
    (hchky : check_injection_patterns years = .ok ())
    (hcs : ∀ c ∈ domain.data, inDomainClassNoAmp c = true)
    (hlen : domain.data.length ≤ 100)
    (hmin : 2 ≤ (stripL (sanitizeCore domain.data)).length)
    (hyf : yearsFormat years.data = true)
    (hys : 1990 ≤ yearStartOf years.data)
    (hye : yearEndOf years.data ≤ currentYear)
    (hse : yearStartOf years.data ≤ yearEndOf years.data)
    (hc1 : 1 ≤ count) (hc2 : count ≤ 50)
    (ht1 : 1 / 10 ≤ temperature) (ht2 : temperature ≤ 2) :
    validate_domain_input domain years count temperature
      = .ok ⟨String.mk (stripL (sanitizeCore domain.data)), years, count,
             temperature⟩ := by
  have hesc : htmlEscapeQ domain.data = domain.data :=
    htmlEscapeQ_id (fun c hc => by
      obtain ⟨h1, h2, h3, h4, h5⟩ := inDomainClassNoAmp_codes (hcs c hc)
      exact escCharQ_id h1 h2 h3 h4 h5)
  have hlen2 : ¬(100 < (sanitizeCore domain.data).length) := by
    have := sanitizeCore_length_le hesc
    omega
  have hsti : sanitize_text_input domain 100
      = .ok (String.mk (stripL (sanitizeCore domain.data))) := by
    unfold sanitize_text_input
    rw [hchk, exc_bind_ok, if_neg hlen2]
  have hre : reDomainMatch (stripL (sanitizeCore domain.data)) = true := by
    unfold reDomainMatch
    rw [Bool.and_eq_true]
    constructor
    · simp only [decide_eq_true_eq]
      intro he
      rw [he] at hmin
      simp at hmin
    · rw [List.all_eq_true]
      intro c hc
      rcases sanitizeCore_mem hesc (stripL_subset c hc) with hm | hm
      · have h6 := hcs c hm
        simp only [inDomainClassNoAmp, inDomainClass, isWordC, isAlnumC,
          isAlphaC, isDigitC, isSpaceC, Bool.or_eq_true, decide_eq_true_eq]
          at h6 ⊢
        omega
      · subst hm
        decide
  have hdom : validateDomainField domain
      = .ok (String.mk (stripL (sanitizeCore domain.data))) := by
    unfold validateDomainField
    rw [hsti, exc_bind_ok]
    rw [if_neg (show ¬((stripL (String.mk (stripL
        (sanitizeCore domain.data))).data).length < 2) from by
      have hid : stripL (stripL (sanitizeCore domain.data))
          = stripL (sanitizeCore domain.data) := stripL_idem _
      rw [show (String.mk (stripL (sanitizeCore domain.data))).data
            = stripL (sanitizeCore domain.data) from rfl, hid]
      omega)]
    rw [if_neg (show ¬((!(reDomainMatch (String.mk (stripL
        (sanitizeCore domain.data))).data)) = true) from by
      rw [show (String.mk (stripL (sanitizeCore domain.data))).data
            = stripL (sanitizeCore domain.data) from rfl, hre]
      simp)]
    rfl
  obtain ⟨a, b, c, d, f, g, h8, i, hy_eq, hy_chars⟩ := yearsFormat_cases hyf
  have hyid : sanitizeCore years.data = years.data :=
    sanitizeCore_id_of_digits hy_chars
  have hynospace : ∀ x ∈ years.data, isSpaceC x = false := fun x hx => by
    rcases hy_chars x hx with h | h
    · simp only [isDigitC, decide_eq_true_eq] at h
      simp only [isSpaceC]
      simp only [Bool.or_eq_false_iff, decide_eq_false_iff_not]
      omega
    · simp only [isSpaceC]
      simp only [Bool.or_eq_false_iff, decide_eq_false_iff_not]
      omega
  have hystrip : stripL years.data = years.data :=
    stripL_id_of_no_space hynospace
  have hylen : ¬(20 < (sanitizeCore years.data).length) := by
    rw [hyid, hy_eq]
    simp
  have hysti : sanitize_text_input years 20 = .ok years := by
    unfold sanitize_text_input
    rw [hchky, exc_bind_ok, if_neg hylen, hyid, hystrip]
  have hyrs : validateYearsField years = .ok years := by
    unfold validateYearsField
    rw [hysti, exc_bind_ok]
    rw [if_neg (show ¬((!(yearsFormat years.data)) = true) from by
      rw [hyf]; simp)]
    rw [if_neg (show ¬(yearStartOf years.data < 1990
        ∨ currentYear < yearEndOf years.data) from by omega)]
    rw [if_neg (show ¬(yearEndOf years.data < yearStartOf years.data) from by
      omega)]
    rfl
  have hcnt : validateCountField count = .ok count := by
    unfold validateCountField
    rw [if_neg (show ¬(count < 1 ∨ 50 < count) from by omega)]
    rfl
  have htmp : validateTempField temperature = .ok temperature := by
    unfold validateTempField
    rw [if_neg (show ¬(temperature < 1 / 10 ∨ 2 < temperature) from by
      rintro (h | h)
      · exact absurd ht1 (not_le.mpr h)
      · exact absurd ht2 (not_le.mpr h))]
    rfl
  unfold validate_domain_input
  rw [hdom, exc_bind_ok, hyrs, exc_bind_ok, hcnt, exc_bind_ok, htmp,
      exc_bind_ok]
  rfl

/-- **C3 witness**: the concrete well-formed query succeeds and returns
its fields sanitized/trimmed (here unchanged). -/
theorem c3_validate_accepts_wellformed_witness :
    validate_domain_input "machine learning" "2020-2024" 5 (7 / 10)
      = .ok ⟨"machine learning", "2020-2024", 5, 7 / 10⟩ :=
  c3_validate_accepts_wellformed "machine learning" "2020-2024" 5 (7 / 10)
    (by rfl) (by rfl) (by decide) (by decide) (by decide) (by decide)
    (by decide) (by decide) (by decide) (by decide) (by decide)
    (by with_unfolding_all decide) (by with_unfolding_all decide)

end AcademicReview
